import Mathlib

/-!
Verification of `puget-mesh-tiles` (scripts/render_raster_tiles.js and its
historical variants) against its natural-language specification.

The JavaScript source is shallowly embedded: strings stay strings, the
filesystem is an association list from paths to byte lists, process-wide
mutable caches become explicit state records, and `main`'s control flow
becomes an event trace.  Each definition mirrors one function of the source.

JavaScript string primitives (`split`, `trim`, `startsWith`, global
`replace`) are implemented here over `List Char` so that every definition
reduces inside the kernel and concrete runs can be settled by `decide`.
-/

namespace PugetMesh

/-! ## JavaScript string primitives -/

/-- `s.split(sep)` for a single-character separator, on character lists.
As in JavaScript, the result is never empty: splitting the empty string
yields `[[]]`. -/
def splitOnCharL (sep : Char) : List Char → List (List Char)
  | [] => [[]]
  | c :: rest =>
    let r := splitOnCharL sep rest
    if c = sep then [] :: r
    else
      match r with
      | [] => [[c]]
      | h :: t => (c :: h) :: t

/-- `s.trim()` on character lists: strip whitespace from both ends. -/
def trimL (cs : List Char) : List Char :=
  ((cs.dropWhile Char.isWhitespace).reverse.dropWhile Char.isWhitespace).reverse

/-- `s.split(sep)` at the string level. -/
def jsSplit (sep : Char) (s : String) : List String :=
  (splitOnCharL sep s.toList).map List.asString

/-- `s.trim()` at the string level. -/
def jsTrim (s : String) : String :=
  (trimL s.toList).asString

/-- `s.startsWith(pre)`. -/
def jsStartsWith (s pre : String) : Bool :=
  pre.toList.isPrefixOf s.toList

/-- Join a list of character lists with a separator character
(`Array.prototype.join` / path reassembly). -/
def joinSepL (sep : Char) : List (List Char) → List Char
  | [] => []
  | [c] => c
  | c :: rest => c ++ sep :: joinSepL sep rest

/-! ## Filesystem and HTTP response model -/

/-- The glyph cache on disk: an association list from absolute file paths to
file contents (bytes as naturals).  `fs.existsSync` / `createReadStream` are
lookups into this list. -/
abbrev FS := List (String × List Nat)

/-- Model of `fs.existsSync` + reading: the contents stored at `p`, if any. -/
def lookupFs (fsys : FS) (p : String) : Option (List Nat) :=
  (fsys.find? (fun e => decide (e.1 = p))).map (fun e => e.2)

/-- Outcome of one glyph-proxy request: the 404 branch, or the 200 branch
streaming the bytes of the file found at `path`. -/
inductive GlyphResponse
  | notFound
  | served (path : String) (bytes : List Nat)
deriving DecidableEq

/-! ## Node `path` module (posix), as used by the server

`path.join(absGlyphs, s, range)` concatenates with `/` and normalizes;
`path.normalize` resolves `.` and `..` components.  All paths handled by the
server are absolute (they extend the resolved cache root), so normalization
is modelled for absolute posix paths. -/

/-- One step of posix normalization: push a component onto the resolved stack
(`.` and empty components vanish, `..` pops — for absolute paths a `..` at
the root is dropped, as in Node). -/
def pushComp (stack : List (List Char)) (c : List Char) : List (List Char) :=
  if c = [] || c = ['.'] then stack
  else if c = ['.', '.'] then stack.tail
  else c :: stack

/-- Model of `path.normalize` on an absolute posix path. -/
def pathNormalize (s : String) : String :=
  ('/' :: joinSepL '/' (((splitOnCharL '/' s.toList).foldl pushComp []).reverse)).asString

/-- Model of `path.join(a, b, c)` for non-empty segments. -/
def pathJoin3 (a b c : String) : String :=
  pathNormalize (a ++ "/" ++ b ++ "/" ++ c)

/-- Whether normalized absolute path `p` lies within directory `root`
component-wise (the property the spec demands of served files). -/
def isWithinRoot (root p : String) : Bool :=
  (splitOnCharL '/' root.toList).isPrefixOf (splitOnCharL '/' p.toList)

/-! ## `decodeURIComponent`

The server calls `decodeURIComponent(parts[0])`.  Modelled for ASCII
percent-escapes (`%XY` with hex digits decodes to the byte `0xXY`); other
characters pass through. -/

/-- Hexadecimal value of a character, if it is a hex digit. -/
def hexVal (c : Char) : Option Nat :=
  if '0' ≤ c ∧ c ≤ '9' then some (c.toNat - 48)
  else if 'a' ≤ c ∧ c ≤ 'f' then some (c.toNat - 87)
  else if 'A' ≤ c ∧ c ≤ 'F' then some (c.toNat - 55)
  else none

/-- Percent-decoding on character lists. -/
def decodeL : List Char → List Char
  | [] => []
  | '%' :: a :: b :: rest =>
    match hexVal a, hexVal b with
    | some h, some l => Char.ofNat (16 * h + l) :: decodeL rest
    | _, _ => '%' :: decodeL (a :: b :: rest)
  | c :: rest => c :: decodeL rest

/-- Model of `decodeURIComponent` (ASCII escapes). -/
def decodeURIComponent (s : String) : String :=
  (decodeL s.toList).asString

/-! ## The glyph proxy request handler

Mirrors the anonymous `http.createServer` handler in
`scripts/render_raster_tiles.js` lines 83–111. -/

/-- The fallback stack list the handler builds:
`[fontstack, ...fontstack.split(',')].map(s => s.trim()).filter(Boolean)`. -/
def tryStacksOf (fontstack : String) : List String :=
  ((fontstack :: jsSplit ',' fontstack).map jsTrim).filter (fun s => !s.toList.isEmpty)

/-- One candidate of the handler's loop body: build
`path.join(absGlyphs, s, range)`, normalize it, skip it unless the result
has the root as a string prefix (`safe.startsWith(absGlyphs)`), then look it
up on disk. -/
def candidateLookup (fsys : FS) (root stack range : String) :
    Option (String × List Nat) :=
  let candidate := pathJoin3 root stack range
  let safe := pathNormalize candidate
  if jsStartsWith safe root then
    (lookupFs fsys safe).map (fun b => (safe, b))
  else
    none

/-- The handler's `for (const s of tryStacks)` loop: first candidate that
passes the prefix check and exists on disk wins. -/
def findFile (fsys : FS) (root range : String) : List String →
    Option (String × List Nat)
  | [] => none
  | s :: rest =>
    match candidateLookup fsys root s range with
    | some r => some r
    | none => findFile fsys root range rest

/-- Convert the loop's result into the HTTP response (404 when no candidate
was found, else stream the file). -/
def respOf (r : Option (String × List Nat)) : GlyphResponse :=
  match r with
  | some (p, b) => .served p b
  | none => .notFound

/-- The glyph lookup performed once the two path segments are in hand. -/
def glyphLookup (fsys : FS) (root fontstackRaw range : String) : GlyphResponse :=
  let fontstack := decodeURIComponent fontstackRaw
  respOf (findFile fsys root range (tryStacksOf fontstack))

/-- The full request handler: split the URL pathname on `/`, drop empty
segments, demand exactly two segments, then look up the glyph file. -/
def handleGlyphRequest (fsys : FS) (root pathname : String) : GlyphResponse :=
  match (jsSplit '/' pathname).filter (fun p => !p.toList.isEmpty) with
  | [a, b] => glyphLookup fsys root a b
  | _ => .notFound

/-! ## StyleResolver

`loadStyleWithMbtilesBasename` (scripts/render_raster_tiles.js lines 35–42)
serializes the style document and runs
`styleStr.replace(/MBTILES_PATH/g, serviceName)`.  The global replace is
modelled below: leftmost match, non-overlapping, the replacement is not
rescanned. -/

/-- Fuel-indexed engine for the global replace, structurally recursive so
that it reduces inside the kernel.  With fuel at least `s.length` it scans
`s` for the leftmost occurrence of `t`, emits `r`, and resumes after the
match (the replacement is not rescanned). -/
def replaceAllFuel (t r : List Char) : ℕ → List Char → List Char
  | _, [] => []
  | 0, s => s
  | f + 1, c :: s' =>
    if t ≠ [] ∧ t.isPrefixOf (c :: s') then
      r ++ replaceAllFuel t r f (List.drop (t.length - 1) s')
    else
      c :: replaceAllFuel t r f s'

/-- `String.prototype.replace` with a global literal pattern `t` and
replacement `r`, on character lists.  An empty pattern replaces nothing. -/
def replaceAllL (t r s : List Char) : List Char :=
  replaceAllFuel t r s.length s

/-- Whether `t` occurs as a contiguous substring of `s` (Boolean scan). -/
def containsSubL (t : List Char) : List Char → Bool
  | [] => t.isEmpty
  | c :: s' => t.isPrefixOf (c :: s') || containsSubL t s'

/-- String-level substring test. -/
def containsSub (t s : String) : Bool :=
  containsSubL t.toList s.toList

/-- The placeholder token substituted into style documents. -/
def mbtilesToken : String := "MBTILES_PATH"

/-- The substitution step of `loadStyleWithMbtilesBasename`: replace every
occurrence of the placeholder token by the data-source reference. -/
def resolveStyle (styleStr serviceName : String) : String :=
  (replaceAllL mbtilesToken.toList serviceName.toList styleStr.toList).asString

/-! ## BoundingBoxCalculator

`tileBBox` (scripts/render_raster_tiles.js lines 26–33), over the real
numbers (the idealization of the script's float64 arithmetic). -/

/-- A geographic bounding box in degrees. -/
structure BBox where
  west : ℝ
  south : ℝ
  east : ℝ
  north : ℝ

/-- Interval containment of bounding boxes. -/
def BBox.contains (outer inner : BBox) : Prop :=
  outer.west ≤ inner.west ∧ outer.south ≤ inner.south ∧
    inner.east ≤ outer.east ∧ inner.north ≤ outer.north

/-- The inverse-Mercator latitude of the fractional row position `t = y / n`:
`atan(sinh(π·(1 − 2t))) · 180/π`. -/
noncomputable def mercLat (t : ℝ) : ℝ :=
  (180 / Real.pi) * Real.arctan (Real.sinh (Real.pi * (1 - 2 * t)))

/-- `tileBBox(z, x, y)`: west/east from the column, north/south from the
rows `y` and `y+1` via the inverse Mercator. -/
noncomputable def tileBBox (z x y : ℕ) : BBox where
  west := ((x : ℝ) / 2 ^ z) * 360 - 180
  south := mercLat (((y : ℝ) + 1) / 2 ^ z)
  east := (((x : ℝ) + 1) / 2 ^ z) * 360 - 180
  north := mercLat ((y : ℝ) / 2 ^ z)

/-! ## Tile-list parsing and the render loop

`main` reads the tile list, trims it, splits it on `\r?\n`, and for each
non-blank line runs `line.split(',').map(s => parseInt(s, 10))`, destructures
the first three values, renders, and writes
`path.join(outdir, String(z), String(x), y + ".png")`
(scripts/render_raster_tiles.js lines 123–151). -/

/-- A JavaScript value that can land in the `z`/`x`/`y` slots: a finite
number, `NaN` (from a failed `parseInt`), or `undefined` (from destructuring
past the end of the array). -/
inductive JSNum
  | num (n : ℤ)
  | nan
  | undef
deriving DecidableEq

/-- `String(v)` for such a value, as used to build the output path. -/
def jsShow : JSNum → String
  | .num n => toString n
  | .nan => "NaN"
  | .undef => "undefined"

/-- `parseInt(s, 10)`: skip leading whitespace, optional sign, then the
longest prefix of decimal digits; `NaN` when no digit is found. -/
def jsParseInt (s : String) : JSNum :=
  let cs := s.toList.dropWhile Char.isWhitespace
  let signed : Bool × List Char :=
    match cs with
    | '-' :: rest => (true, rest)
    | '+' :: rest => (false, rest)
    | rest => (false, rest)
  let ds := signed.2.takeWhile Char.isDigit
  match ds with
  | [] => .nan
  | _ =>
    let v : ℤ := ds.foldl (fun a c => 10 * a + ((c.toNat : ℤ) - 48)) 0
    .num (if signed.1 then -v else v)

/-- `const [z, x, y] = line.split(',').map(s => parseInt(s, 10))`. -/
def parseTriple (line : String) : JSNum × JSNum × JSNum :=
  let nums := (jsSplit ',' line).map jsParseInt
  ((nums.get? 0).getD .undef, (nums.get? 1).getD .undef, (nums.get? 2).getD .undef)

/-- The output path of one loop iteration:
`path.join(outdir, String(z), String(x))` plus the file name `y + ".png"`. -/
def tilePathOf (outdir line : String) : String :=
  let t := parseTriple line
  outdir ++ "/" ++ jsShow t.1 ++ "/" ++ jsShow t.2.1 ++ "/" ++ jsShow t.2.2 ++ ".png"

/-- One iteration of the render loop: blank lines are skipped; every other
line is parsed without validation, rendered with the parsed coordinates, and
written to the derived path. -/
def loopStep (outdir line : String) : Option ((JSNum × JSNum × JSNum) × String) :=
  if (jsTrim line).toList = [] then none
  else some (parseTriple line, tilePathOf outdir line)

/-- The paths of all files the loop writes, in input order. -/
def renderLoopWrites (outdir : String) (lines : List String) : List String :=
  lines.filterMap (fun l => (loopStep outdir l).map (fun p => p.2))

/-- The count printed by `Done. Wrote ${lines.length} tiles`: the raw number
of lines, blank or not. -/
def reportedCount (lines : List String) : ℕ :=
  lines.length

/-- `content.trim().split(/\r?\n/)` on character lists: split on `\r\n` or
lone `\n`.  Like every JavaScript `split`, the result is never the empty
array. -/
def jsSplitLinesL : List Char → List (List Char)
  | [] => [[]]
  | '\r' :: '\n' :: rest => [] :: jsSplitLinesL rest
  | '\n' :: rest => [] :: jsSplitLinesL rest
  | c :: rest =>
    match jsSplitLinesL rest with
    | [] => [[c]]
    | h :: t => (c :: h) :: t

/-- The `lines` array of `main`: trim the file content, then split. -/
def linesOf (content : String) : List String :=
  (jsSplitLinesL (jsTrim content).toList).map List.asString

/-- Whether `main`'s `lines.length === 0` configuration check fires. -/
def emptyCheckFires (content : String) : Bool :=
  (linesOf content).length == 0

/-! ## RenderBackendResolver (unnamed variant `part_000`, lines 14–52)

Process-wide caches `cachedModuleRender` / `cachedCliTemplate` become an
explicit state record; the module import, the success of a module render
call, and the outcome of CLI probing become an environment record.
Instrumentation counters record module invocations and
`detectCliTemplate` runs. -/

/-- The three observable states of `cachedModuleRender`:
`null` (unprobed), a function, or `undefined` (demoted after a throw). -/
inductive ModCache
  | mnull
  | mfun
  | mundef
deriving DecidableEq

/-- Which strategy served a render call. -/
inductive StrategyUsed
  | inProcess
  | outOfProcess
deriving DecidableEq

/-- Result of one `renderTileCompat` call. -/
inductive CallResult
  | ok (strat : StrategyUsed)
  | failed
deriving DecidableEq

/-- The resolver's process-wide state, plus instrumentation counters. -/
structure ResolverState where
  modCache : ModCache
  cliDetected : Bool
  moduleCalls : ℕ
  cliProbes : ℕ
deriving DecidableEq

/-- Initial state: both caches `null`. -/
def initState : ResolverState := ⟨.mnull, false, 0, 0⟩

/-- The environment the resolver runs in: whether the module export exists,
from which module invocation (if any) module renders start throwing, and
whether `detectCliTemplate` finds a working CLI candidate. -/
structure RenderEnv where
  moduleAvailable : Bool
  moduleFailsFrom : Option ℕ
  cliDetectOk : Bool
deriving DecidableEq

/-- Whether the `idx`-th module render invocation succeeds. -/
def moduleCallSucceeds (env : RenderEnv) (idx : ℕ) : Bool :=
  match env.moduleFailsFrom with
  | none => true
  | some k => idx < k

/-- The CLI half of `renderTileCompat`: reuse `cachedCliTemplate` when it is
a function; otherwise run `detectCliTemplate` (counted as a probe) and cache
its result; throw when detection fails (the cache stays `null`). -/
def cliPath (env : RenderEnv) (s : ResolverState) : ResolverState × CallResult :=
  if s.cliDetected then (s, .ok .outOfProcess)
  else
    let s' := { s with cliProbes := s.cliProbes + 1 }
    if env.cliDetectOk then ({ s' with cliDetected := true }, .ok .outOfProcess)
    else (s', .failed)

/-- One call of `renderTileCompat` (part_000 lines 29–52): lazily populate
`cachedModuleRender`; use it when it is a function, demoting it to
`undefined` permanently if the call throws; otherwise fall back to the CLI
template cache. -/
def renderTileCompat (env : RenderEnv) (s : ResolverState) :
    ResolverState × CallResult :=
  let mc := if s.modCache = .mnull then
              (if env.moduleAvailable then ModCache.mfun else .mnull)
            else s.modCache
  if mc = .mfun then
    if moduleCallSucceeds env s.moduleCalls then
      ({ s with modCache := .mfun, moduleCalls := s.moduleCalls + 1 }, .ok .inProcess)
    else
      cliPath env { s with modCache := .mundef, moduleCalls := s.moduleCalls + 1 }
  else
    cliPath env { s with modCache := mc }

/-- `n` successive `renderTileCompat` calls from the initial state,
returning the final state and the per-call results. -/
def runCalls (env : RenderEnv) : ℕ → ResolverState × List CallResult
  | 0 => (initState, [])
  | n + 1 =>
    let r := runCalls env n
    let st := renderTileCompat env r.1
    (st.1, r.2 ++ [st.2])

/-! ## Out-of-process probe acceptance (C4)

`detectCliTemplate` (part_000 lines 78–106) accepts a candidate when
`!run.error && run.status === 0 && fs.existsSync(outPng)`.  The
non-memoizing variant (part_001 lines 52–62) additionally requires the
result to be non-empty. -/

/-- The observable outcome of one candidate `spawnSync`. -/
structure ProbeOutcome where
  spawnError : Bool
  status : ℤ
  outFileExists : Bool
  outFileSize : ℕ
  stdoutLen : ℕ
deriving DecidableEq

/-- Output mode declared by a candidate. -/
inductive OutputMode
  | file
  | stdout
deriving DecidableEq

/-- Acceptance in `detectCliTemplate` (part_000 line 80):
`!run.error && run.status === 0 && fs.existsSync(outPng)`. -/
def detectAccept (o : ProbeOutcome) : Bool :=
  !o.spawnError && o.status == 0 && o.outFileExists

/-- Acceptance in the part_001 candidate loop (lines 52–62): spawn
succeeded, exit 0, and a non-empty output file (file mode) or non-empty
captured stdout (stdout mode). -/
def candidateAccept (mode : OutputMode) (o : ProbeOutcome) : Bool :=
  if o.spawnError || o.status != 0 then false
  else
    match mode with
    | .file => o.outFileExists && o.outFileSize != 0
    | .stdout => o.stdoutLen != 0

/-- Modelled from the spec: the acceptance condition claim C4 states — a
successful exit status AND a non-empty result (output file exists and is
non-empty, or stdout non-empty, per the declared output mode). -/
def specAccept (mode : OutputMode) (o : ProbeOutcome) : Bool :=
  !o.spawnError && o.status == 0 &&
    (match mode with
     | .file => o.outFileExists && o.outFileSize != 0
     | .stdout => o.stdoutLen != 0)

/-! ## `main`'s control flow as an event trace (C9)

scripts/render_raster_tiles.js lines 53–157: the glyph server is started
before the probe; the loop renders and writes each tile; `glyphServer.close()`
runs only after the loop completes normally; any thrown error reaches
`main().catch`, which exits 1 without closing the server. -/

/-- Observable events of one run. -/
inductive MainEvent
  | serverStart
  | probe
  | renderT (i : ℕ)
  | writeT (i : ℕ)
  | serverClose
  | exitP (code : ℕ)
deriving DecidableEq

/-- Render/write event pairs for tiles `0 … k-1`. -/
def tileEvents (k : ℕ) : List MainEvent :=
  ((List.range k).map (fun i => [MainEvent.renderT i, MainEvent.writeT i])).flatten

/-- The event trace of `main` after argument parsing, for a run with
`numLines` tiles: the probe failing, or tile `failIdx` failing, aborts via
`main().catch` with exit 1 and no `serverClose`. -/
def mainTrace (serverStarted probeOk : Bool) (numLines : ℕ)
    (failIdx : Option ℕ) : List MainEvent :=
  (if serverStarted then [MainEvent.serverStart] else []) ++ [MainEvent.probe] ++
    (if probeOk = false then [MainEvent.exitP 1]
     else
       match failIdx with
       | some k =>
         if k < numLines then
           tileEvents k ++ [MainEvent.renderT k, MainEvent.exitP 1]
         else
           tileEvents numLines ++
             (if serverStarted then [MainEvent.serverClose] else []) ++
               [MainEvent.exitP 0]
       | none =>
         tileEvents numLines ++
           (if serverStarted then [MainEvent.serverClose] else []) ++
             [MainEvent.exitP 0])

/-! ## Helper lemmas -/

/-- JavaScript's `split` never returns an empty array. -/
theorem jsSplitLinesL_ne_nil (cs : List Char) : jsSplitLinesL cs ≠ [] := by
  induction cs using jsSplitLinesL.induct <;> simp [jsSplitLinesL]
  all_goals split <;> simp_all

/-- `linesOf` never returns an empty list of lines. -/
theorem linesOf_ne_nil (content : String) : linesOf content ≠ [] := by
  intro hc
  unfold linesOf at hc
  exact jsSplitLinesL_ne_nil (jsTrim content).toList (List.map_eq_nil_iff.mp hc)

/-! ## Claim theorems -/

/-- Claim C1: the spec demands that a request whose normalized candidate
path lies outside the glyph cache root is answered 404 and never served.
The handler's guard is `safe.startsWith(absGlyphs)`, a string-prefix check:
with cache root `/data/glyphs`, the request path
`/%2E%2E%2Fglyphs-evil/0-255.pbf` decodes to the stack `../glyphs-evil`,
joins and normalizes to `/data/glyphs-evil/0-255.pbf` — outside the root
directory, yet sharing it as a string prefix — and the handler serves that
file's bytes.  The code violates the claim. -/
theorem glyph_traversal_escape :
    handleGlyphRequest [("/data/glyphs-evil/0-255.pbf", [7, 7, 7])] "/data/glyphs"
        "/%2E%2E%2Fglyphs-evil/0-255.pbf"
      = .served "/data/glyphs-evil/0-255.pbf" [7, 7, 7]
  ∧ isWithinRoot "/data/glyphs" "/data/glyphs-evil/0-255.pbf" = false := by
  decide

/-- Claim C7: the spec says an empty tile list is a configuration error,
reported immediately with a non-zero exit and nothing rendered.  The guard
`lines.length === 0` can never fire — `split` never returns an empty
array — so for empty content `lines` is `[""]`, the probe proceeds on the
NaN-parsed first line, zero tiles are written, and the final message
reports one tile. -/
theorem tilelist_empty_check_dead :
    (∀ content : String, linesOf content ≠ [])
  ∧ emptyCheckFires "" = false
  ∧ linesOf "" = [""]
  ∧ parseTriple "" = (.nan, .undef, .undef)
  ∧ renderLoopWrites "out" (linesOf "") = []
  ∧ reportedCount (linesOf "") = 1 := by
  refine ⟨linesOf_ne_nil, ?_, ?_, ?_, ?_, ?_⟩ <;> decide

/-- Claim C2 counterexample: with the module export present, its second
invocation throwing, and a working CLI, the run of two render calls uses
the in-process strategy and then the out-of-process strategy — two distinct
strategies in one process lifetime — and performs a CLI candidate probe
after the first selection was already made. -/
theorem resolver_demotion_counterexample :
    (runCalls ⟨true, some 1, true⟩ 2).2 = [.ok .inProcess, .ok .outOfProcess]
  ∧ (runCalls ⟨true, some 1, true⟩ 2).1.cliProbes = 1 := by
  decide

/-- Claim C4 counterexample: a candidate whose subprocess spawns cleanly,
exits 0, and leaves an existing but empty output file is accepted (and
memoized) by `detectCliTemplate`, though the claimed acceptance condition
requires a non-empty result. -/
theorem probe_accept_empty_file :
    detectAccept ⟨false, 0, true, 0, 0⟩ = true
  ∧ specAccept .file ⟨false, 0, true, 0, 0⟩ = false := by
  decide

/-- Claim C4 (amended): the non-memoizing variant (part_001) accepts a
candidate exactly under the claimed condition — successful spawn, exit
status 0, and a non-empty result in the declared output mode — while the
memoizing resolver's `detectCliTemplate` (part_000) accepts on successful
spawn, exit status 0, and mere existence of the output file, without
checking that it is non-empty. -/
theorem probe_acceptance (o : ProbeOutcome) (mode : OutputMode) :
    candidateAccept mode o = specAccept mode o
  ∧ (detectAccept o = true ↔
      o.spawnError = false ∧ o.status = 0 ∧ o.outFileExists = true) := by
  obtain ⟨e, st, ex, sz, sl⟩ := o
  constructor
  · cases mode <;> cases e <;>
      simp [candidateAccept, specAccept, bne] <;>
      by_cases h : st = 0 <;> simp [h]
  · cases e <;> cases ex <;> simp [detectAccept]

/-- Claim C6 counterexample: resolving the one-token document with a
data-source reference that itself equals the token (the service name of a
file `MBTILES_PATH.mbtiles`) yields an output in which the placeholder
token still occurs, so the token-free-output half of the claim fails. -/
theorem resolveStyle_token_reappears :
    resolveStyle "MBTILES_PATH" "MBTILES_PATH" = "MBTILES_PATH"
  ∧ containsSub mbtilesToken (resolveStyle "MBTILES_PATH" "MBTILES_PATH") = true := by
  decide

/-- Claim C8 counterexample: a tile list with an interior blank line writes
two files but reports three tiles — the final count is the raw line count,
not the number of tiles written. -/
theorem renderLoop_count_mismatch :
    renderLoopWrites "out" ["8,40,90", "", "8,40,91"]
      = ["out/8/40/90.png", "out/8/40/91.png"]
  ∧ reportedCount ["8,40,90", "", "8,40,91"] = 3 := by
  decide

/-- Claim C9 counterexample: when the render loop fails at the second tile,
the trace ends with exit 1 and contains no `serverClose` event — the
explicit shutdown is not performed on the failure path. -/
theorem server_close_skipped :
    MainEvent.serverClose ∉ mainTrace true true 2 (some 1)
  ∧ mainTrace true true 2 (some 1)
      = [.serverStart, .probe, .renderT 0, .writeT 0, .renderT 1, .exitP 1] := by
  decide

/-- Claim C10: tile-list lines are parsed by splitting on commas and
`parseInt(·, 10)` with no validation: every non-blank line — well-formed or
not — is rendered with the parsed (possibly NaN or undefined) coordinates
and written to a path built verbatim from them, as the concrete malformed
line `foo,bar` illustrates. -/
theorem loop_no_validation (outdir line : String)
    (h : (jsTrim line).toList ≠ []) :
    loopStep outdir line = some (parseTriple line, tilePathOf outdir line)
  ∧ jsParseInt "foo" = .nan
  ∧ parseTriple "foo,bar" = (.nan, .nan, .undef)
  ∧ tilePathOf "out" "foo,bar" = "out/NaN/NaN/undefined.png" := by
  refine ⟨?_, by decide, by decide, by decide⟩
  unfold loopStep
  rw [if_neg h]

/-- Claim C3: for a two-segment request whose decoded font-stack segment
splits into the candidate list `[joined, f, g]` and whose joined stack has
no cache entry, the handler returns the first of `f`, `g` whose range file
is cached (in order), and 404 when neither is. -/
theorem glyph_stack_fallback (fsys : FS) (root pathname sRaw range f g : String)
    (hparts : (jsSplit '/' pathname).filter (fun p => !p.toList.isEmpty)
        = [sRaw, range])
    (hstacks : tryStacksOf (decodeURIComponent sRaw)
        = [decodeURIComponent sRaw, f, g])
    (hjoined : candidateLookup fsys root (decodeURIComponent sRaw) range = none) :
    handleGlyphRequest fsys root pathname
      = respOf ((candidateLookup fsys root f range).or
          (candidateLookup fsys root g range)) := by
  unfold handleGlyphRequest
  rw [hparts]
  show glyphLookup fsys root sRaw range = _
  simp only [glyphLookup]
  rw [hstacks]
  simp only [findFile, hjoined]
  cases hf : candidateLookup fsys root f range <;>
    cases hg : candidateLookup fsys root g range <;>
      simp [findFile, hf, hg, Option.or]

/-- Witness for C3: cache root `/glyphs` holding only
`NotoSans/0-255.pbf`, request `/NotoSans,Arial/0-255.pbf`: the joined stack
misses, the fallback serves NotoSans's cached bytes. -/
theorem glyph_stack_fallback_witness :
    ((jsSplit '/' "/NotoSans,Arial/0-255.pbf").filter (fun p => !p.toList.isEmpty)
        = ["NotoSans,Arial", "0-255.pbf"])
  ∧ tryStacksOf (decodeURIComponent "NotoSans,Arial")
        = [decodeURIComponent "NotoSans,Arial", "NotoSans", "Arial"]
  ∧ candidateLookup [("/glyphs/NotoSans/0-255.pbf", [1, 2, 3])] "/glyphs"
        (decodeURIComponent "NotoSans,Arial") "0-255.pbf" = none
  ∧ handleGlyphRequest [("/glyphs/NotoSans/0-255.pbf", [1, 2, 3])] "/glyphs"
        "/NotoSans,Arial/0-255.pbf"
      = .served "/glyphs/NotoSans/0-255.pbf" [1, 2, 3] := by
  refine ⟨by decide, by decide, by decide, ?_⟩
  exact (glyph_stack_fallback [("/glyphs/NotoSans/0-255.pbf", [1, 2, 3])]
    "/glyphs" "/NotoSans,Arial/0-255.pbf" "NotoSans,Arial" "0-255.pbf"
    "NotoSans" "Arial" (by decide) (by decide) (by decide)).trans (by decide)

/-- The files written by the loop are exactly the non-blank lines, in input
order, each mapped to its derived output path. -/
theorem renderLoopWrites_eq (outdir : String) (lines : List String) :
    renderLoopWrites outdir lines
      = (lines.filter (fun l => !(jsTrim l).toList.isEmpty)).map (tilePathOf outdir) := by
  induction lines with
  | nil => rfl
  | cons l ls ih =>
    by_cases h : (jsTrim l).data = []
    · simpa [renderLoopWrites, List.filterMap_cons, loopStep, h,
        List.filter_cons] using ih
    · simpa [renderLoopWrites, List.filterMap_cons, loopStep, h,
        List.filter_cons] using ih

/-- Claim C8 (amended): the loop writes one file per non-blank line of the
tile list, in input order, at `outdir/z/x/y.png`; the reported final count
is the raw number of lines (blank lines included), which equals the number
of tiles written exactly when no line is blank. -/
theorem renderLoop_writes (outdir : String) (lines : List String) :
    renderLoopWrites outdir lines
      = (lines.filter (fun l => !(jsTrim l).toList.isEmpty)).map (tilePathOf outdir)
  ∧ reportedCount lines = lines.length
  ∧ ((∀ l ∈ lines, (jsTrim l).toList ≠ []) →
      (renderLoopWrites outdir lines).length = reportedCount lines) := by
  refine ⟨renderLoopWrites_eq outdir lines, rfl, ?_⟩
  intro hall
  have h1 : lines.filter (fun l => !(jsTrim l).toList.isEmpty) = lines :=
    List.filter_eq_self.mpr (fun a ha => by simpa using hall a ha)
  rw [renderLoopWrites_eq, h1, List.length_map, reportedCount]

/-- Witness for C8 on the spec's two-line scenario `8,40,90`, `8,40,91`:
both lines are non-blank, exactly the two expected files are produced, and
the reported count matches. -/
theorem renderLoop_writes_witness :
    (∀ l ∈ ["8,40,90", "8,40,91"], (jsTrim l).toList ≠ [])
  ∧ (renderLoopWrites "out" ["8,40,90", "8,40,91"]).length
      = reportedCount ["8,40,90", "8,40,91"]
  ∧ renderLoopWrites "out" ["8,40,90", "8,40,91"]
      = ["out/8/40/90.png", "out/8/40/91.png"] := by
  refine ⟨by decide, ?_, by decide⟩
  exact (renderLoop_writes "out" ["8,40,90", "8,40,91"]).2.2 (by decide)

/-- When the module export is present and never throws, every call uses the
in-process strategy and `detectCliTemplate` is never invoked. -/
theorem runCalls_module (env : RenderEnv) (h1 : env.moduleAvailable = true)
    (h2 : env.moduleFailsFrom = none) (n : ℕ) :
    (runCalls env n).1 = ⟨if n = 0 then .mnull else .mfun, false, n, 0⟩
  ∧ (runCalls env n).2 = List.replicate n (.ok .inProcess) := by
  induction n with
  | zero => exact ⟨rfl, rfl⟩
  | succ k ih =>
    obtain ⟨ihs, iho⟩ := ih
    simp only [runCalls]
    rw [ihs, iho]
    by_cases hk : k = 0 <;>
      simp [renderTileCompat, moduleCallSucceeds, h1, h2, hk,
        List.replicate_succ']

/-- When the module export is absent and the CLI probe succeeds, the first
call runs `detectCliTemplate` once, caches the template, and every call uses
the out-of-process strategy with no further probing. -/
theorem runCalls_cli (env : RenderEnv) (h1 : env.moduleAvailable = false)
    (h3 : env.cliDetectOk = true) (n : ℕ) (hn : 1 ≤ n) :
    (runCalls env n).1 = ⟨.mnull, true, 0, 1⟩
  ∧ (runCalls env n).2 = List.replicate n (.ok .outOfProcess) := by
  induction n with
  | zero => omega
  | succ k ih =>
    by_cases hk : k = 0
    · subst hk
      constructor <;>
        simp [runCalls, renderTileCompat, cliPath, initState, h1, h3]
    · obtain ⟨ihs, iho⟩ := ih (by omega)
      simp only [runCalls]
      rw [ihs, iho]
      simp [renderTileCompat, cliPath, h1, h3, List.replicate_succ']

/-- Claim C2 (amended): absent a mid-run failure of the selected strategy,
`renderTileCompat` selects at most one strategy per process lifetime — when
the module export is present and keeps working, every call uses it and no
CLI candidate is ever probed; when it is absent and the CLI probe succeeds,
`detectCliTemplate` runs exactly once on the first call and every call
reuses the cached template.  (If the in-process strategy throws mid-run it
is demoted permanently and one CLI detection follows, as
`resolver_demotion_counterexample` shows.) -/
theorem resolver_memoized (env : RenderEnv) (n : ℕ) (hn : 1 ≤ n) :
    (env.moduleAvailable = true → env.moduleFailsFrom = none →
      (runCalls env n).2 = List.replicate n (.ok .inProcess)
        ∧ (runCalls env n).1.cliProbes = 0)
  ∧ (env.moduleAvailable = false → env.cliDetectOk = true →
      (runCalls env n).2 = List.replicate n (.ok .outOfProcess)
        ∧ (runCalls env n).1.cliProbes = 1) := by
  constructor
  · intro h1 h2
    obtain ⟨hs, ho⟩ := runCalls_module env h1 h2 n
    exact ⟨ho, by rw [hs]⟩
  · intro h1 h3
    obtain ⟨hs, ho⟩ := runCalls_cli env h1 h3 n hn
    exact ⟨ho, by rw [hs]⟩

/-- Witness for C2 (amended) over three calls with a working module export. -/
theorem resolver_memoized_witness :
    (runCalls ⟨true, none, true⟩ 3).2 = List.replicate 3 (.ok .inProcess)
  ∧ (runCalls ⟨true, none, true⟩ 3).1.cliProbes = 0 :=
  (resolver_memoized ⟨true, none, true⟩ 3 (by decide)).1 rfl rfl

/-- Tile render/write events never contain the server shutdown event. -/
theorem serverClose_not_mem_tileEvents (k : ℕ) :
    MainEvent.serverClose ∉ tileEvents k := by
  simp [tileEvents]

/-- Claim C9 (amended): on a successful run the glyph server is closed
explicitly, right before the exit-0 event; when the probe or a loop
iteration fails, the run ends with exit 1 and the explicit `serverClose`
call is skipped — the server only terminates because the process exits. -/
theorem glyph_server_lifecycle (probeOk : Bool) (numLines : ℕ)
    (failIdx : Option ℕ) :
    (probeOk = true → failIdx = none →
      ∃ pre, mainTrace true probeOk numLines failIdx
          = pre ++ [MainEvent.serverClose, MainEvent.exitP 0])
  ∧ (probeOk = false →
      (∃ pre, mainTrace true probeOk numLines failIdx
          = pre ++ [MainEvent.exitP 1])
        ∧ MainEvent.serverClose ∉ mainTrace true probeOk numLines failIdx)
  ∧ (∀ k, failIdx = some k → k < numLines → probeOk = true →
      (∃ pre, mainTrace true probeOk numLines failIdx
          = pre ++ [MainEvent.exitP 1])
        ∧ MainEvent.serverClose ∉ mainTrace true probeOk numLines failIdx) := by
  refine ⟨?_, ?_, ?_⟩
  · rintro rfl rfl
    exact ⟨[MainEvent.serverStart, MainEvent.probe] ++ tileEvents numLines,
      by simp [mainTrace]⟩
  · rintro rfl
    exact ⟨⟨[MainEvent.serverStart, MainEvent.probe], by simp [mainTrace]⟩,
      by simp [mainTrace]⟩
  · rintro k rfl hk rfl
    have hm := serverClose_not_mem_tileEvents k
    constructor
    · exact ⟨[MainEvent.serverStart, MainEvent.probe] ++ tileEvents k
        ++ [MainEvent.renderT k], by simp [mainTrace, hk]⟩
    · simp [mainTrace, hk, hm]

/-- Witness for C9 (amended): loop failure at the first tile of a two-tile
run ends in exit 1 with no `serverClose` event. -/
theorem glyph_server_lifecycle_witness :
    (∃ pre, mainTrace true true 2 (some 0) = pre ++ [MainEvent.exitP 1])
  ∧ MainEvent.serverClose ∉ mainTrace true true 2 (some 0) :=
  (glyph_server_lifecycle true 2 (some 0)).2.2 0 rfl (by decide) rfl

/-- The inverse-Mercator latitude is strictly antitone in the row
position. -/
theorem mercLat_lt_mercLat {a b : ℝ} (h : a < b) : mercLat b < mercLat a := by
  unfold mercLat
  have hpi := Real.pi_pos
  have h1 : Real.pi * (1 - 2 * b) < Real.pi * (1 - 2 * a) := by nlinarith
  have h3 := Real.arctan_strictMono (Real.sinh_lt_sinh.mpr h1)
  have h4 : (0:ℝ) < 180 / Real.pi := by positivity
  exact mul_lt_mul_of_pos_left h3 h4

/-- The inverse-Mercator latitude is antitone in the row position. -/
theorem mercLat_le_mercLat {a b : ℝ} (h : a ≤ b) : mercLat b ≤ mercLat a := by
  rcases eq_or_lt_of_le h with rfl | hlt
  · exact le_refl _
  · exact (mercLat_lt_mercLat hlt).le

/-- Halving inequality for tile columns/rows: `2·K ≤ X` gives
`K / 2^m ≤ X / 2^(m+1)`. -/
theorem half_div_le {m : ℕ} {K X : ℝ} (hK : 2 * K ≤ X) :
    K / 2 ^ m ≤ X / 2 ^ (m + 1) := by
  rw [pow_succ, div_le_div_iff₀ (by positivity) (by positivity)]
  nlinarith [pow_pos (by norm_num : (0:ℝ) < 2) m]

/-- Halving inequality, upper side: `X + 1 ≤ 2·K + 2` gives
`(X+1) / 2^(m+1) ≤ (K+1) / 2^m`. -/
theorem div_le_half_succ {m : ℕ} {K X : ℝ} (hX : X + 1 ≤ 2 * K + 2) :
    (X + 1) / 2 ^ (m + 1) ≤ (K + 1) / 2 ^ m := by
  rw [pow_succ, div_le_div_iff₀ (by positivity) (by positivity)]
  nlinarith [pow_pos (by norm_num : (0:ℝ) < 2) m]

/-- Claim C5: for valid tile coordinates the computed box satisfies
`south < north` and `west < east`, and for `z ≥ 1` the box of `(z, x, y)`
is contained within the box of its parent tile `(z−1, x/2, y/2)`. -/
theorem tileBBox_valid_nested (z x y : ℕ) (hx : x < 2 ^ z) (hy : y < 2 ^ z) :
    ((tileBBox z x y).south < (tileBBox z x y).north
      ∧ (tileBBox z x y).west < (tileBBox z x y).east)
  ∧ (1 ≤ z →
      BBox.contains (tileBBox (z - 1) (x / 2) (y / 2)) (tileBBox z x y)) := by
  have hn : (0:ℝ) < 2 ^ z := by positivity
  constructor
  · constructor
    · apply mercLat_lt_mercLat
      rw [div_lt_div_iff₀ hn hn]
      nlinarith
    · simp only [tileBBox]
      have hlt : (x:ℝ) / 2 ^ z < ((x:ℝ) + 1) / 2 ^ z := by
        rw [div_lt_div_iff₀ hn hn]
        nlinarith
      linarith
  · intro hz
    obtain ⟨m, rfl⟩ : ∃ m, z = m + 1 := ⟨z - 1, by omega⟩
    have hxx : 2 * ((x / 2 : ℕ) : ℝ) ≤ (x : ℝ) := by
      have : 2 * (x / 2) ≤ x := by omega
      exact_mod_cast this
    have hyy : 2 * ((y / 2 : ℕ) : ℝ) ≤ (y : ℝ) := by
      have : 2 * (y / 2) ≤ y := by omega
      exact_mod_cast this
    have hxx1 : (x : ℝ) + 1 ≤ 2 * ((x / 2 : ℕ) : ℝ) + 2 := by
      have : x + 1 ≤ 2 * (x / 2) + 2 := by omega
      exact_mod_cast this
    have hyy1 : (y : ℝ) + 1 ≤ 2 * ((y / 2 : ℕ) : ℝ) + 2 := by
      have : y + 1 ≤ 2 * (y / 2) + 2 := by omega
      exact_mod_cast this
    have hred : m + 1 - 1 = m := by omega
    rw [hred]
    refine ⟨?_, ?_, ?_, ?_⟩
    · simp only [tileBBox]
      have := half_div_le (m := m) hxx
      linarith
    · simp only [tileBBox]
      exact mercLat_le_mercLat (div_le_half_succ (m := m) hyy1)
    · simp only [tileBBox]
      have := div_le_half_succ (m := m) hxx1
      linarith
    · simp only [tileBBox]
      exact mercLat_le_mercLat (half_div_le (m := m) hyy)

/-- Witness for C5 at tile `(1, 0, 0)`. -/
theorem tileBBox_valid_nested_witness :
    ((tileBBox 1 0 0).south < (tileBBox 1 0 0).north
      ∧ (tileBBox 1 0 0).west < (tileBBox 1 0 0).east)
  ∧ (1 ≤ 1 →
      BBox.contains (tileBBox (1 - 1) (0 / 2) (0 / 2)) (tileBBox 1 0 0)) :=
  tileBBox_valid_nested 1 0 0 (by decide) (by decide)

/-- The replace engine does not depend on the fuel, as long as the fuel
covers the input length. -/
theorem replaceAllFuel_congr (t r : List Char) :
    ∀ (f₁ f₂ : ℕ) (s : List Char), s.length ≤ f₁ → s.length ≤ f₂ →
      replaceAllFuel t r f₁ s = replaceAllFuel t r f₂ s := by
  intro f₁
  induction f₁ with
  | zero =>
    intro f₂ s h1 h2
    have hs : s = [] := List.length_eq_zero.mp (Nat.le_zero.mp h1)
    subst hs
    cases f₂ <;> rfl
  | succ g ih =>
    intro f₂ s h1 h2
    cases s with
    | nil => cases f₂ <;> rfl
    | cons c s' =>
      cases f₂ with
      | zero => simp at h2
      | succ h =>
        simp only [replaceAllFuel]
        by_cases hc : t ≠ [] ∧ t.isPrefixOf (c :: s')
        · rw [if_pos hc, if_pos hc]
          congr 1
          apply ih
          · simp only [List.length_drop]
            simp only [List.length_cons] at h1
            omega
          · simp only [List.length_drop]
            simp only [List.length_cons] at h2
            omega
        · rw [if_neg hc, if_neg hc]
          congr 1
          apply ih <;> simp_all

/-- Unfolding step of the global replace on a non-empty input. -/
theorem replaceAllL_cons (t r : List Char) (c : Char) (s' : List Char) :
    replaceAllL t r (c :: s')
      = if t ≠ [] ∧ t.isPrefixOf (c :: s') then
          r ++ replaceAllL t r (List.drop (t.length - 1) s')
        else c :: replaceAllL t r s' := by
  unfold replaceAllL
  simp only [List.length_cons, replaceAllFuel]
  by_cases hc : t ≠ [] ∧ t.isPrefixOf (c :: s')
  · rw [if_pos hc, if_pos hc]
    congr 1
    apply replaceAllFuel_congr
    · simp only [List.length_drop]
      omega
    · exact le_refl _
  · rw [if_neg hc, if_neg hc]

/-- The Boolean substring scan agrees with `List.IsInfix`. -/
theorem containsSubL_iff (t s : List Char) :
    containsSubL t s = true ↔ t <:+: s := by
  induction s with
  | nil => simp [containsSubL, List.isEmpty_iff, List.infix_nil]
  | cons c s' ih =>
    simp [containsSubL, List.infix_cons_iff, ih, List.isPrefixOf_iff_prefix]

/-- When the pattern does not occur, the global replace is the identity. -/
theorem replaceAllL_of_not_contains (t r : List Char) :
    ∀ s, ¬ t <:+: s → replaceAllL t r s = s := by
  intro s
  induction s with
  | nil => intro _; rfl
  | cons c s' ih =>
    intro h
    have h1 : ¬ t <+: c :: s' := fun hp => h hp.isInfix
    have h2 : ¬ t <:+: s' := fun hi => h ( List.infix_cons hi)
    rw [replaceAllL_cons, if_neg, ih h2]
    rintro ⟨-, hp⟩
    exact h1 ( List.isPrefixOf_iff_prefix.mp hp)

/-- A non-empty pattern whose characters all avoid `r` cannot occur as an
infix of `r ++ out` unless it occurs in `out`. -/
theorem not_infix_append {t r out : List Char} (ht : t ≠ [])
    (hdisj : ∀ c ∈ t, c ∉ r) (hout : ¬ t <:+: out) : ¬ t <:+: r ++ out := by
  rintro ⟨u, v, huv⟩
  rcases List.append_eq_append_iff.mp huv with ⟨w, hw1, _⟩ | ⟨w, hw1, hw2⟩
  · obtain ⟨th, tt, rfl⟩ := List.exists_cons_of_ne_nil ht
    have hmem : th ∈ r := by
      rw [hw1]
      exact List.mem_append_left _
        (List.mem_append_right _ (List.mem_cons_self th tt))
    exact hdisj th (List.mem_cons_self th tt) hmem
  · rcases List.append_eq_append_iff.mp hw1 with ⟨w', hw1', hw2'⟩ | ⟨w', _, hw2'⟩
    · cases w' with
      | nil =>
        simp only [List.nil_append] at hw2'
        subst hw2'
        exact hout ⟨[], v, by simp [hw2]⟩
      | cons d w'' =>
        have hdm : d ∈ r := by
          rw [hw1']
          exact List.mem_append_right _ (List.mem_cons_self d w'')
        have hdt : d ∈ t := by
          rw [hw2']
          exact List.mem_append_left _ (List.mem_cons_self d w'')
        exact hdisj d hdt hdm
    · exact hout ⟨w', v, by rw [hw2, hw2']⟩

/-- A non-empty prefix of the replaced output whose characters avoid the
replacement string is already a prefix of the input. -/
theorem prefix_replaceAll_imp {t r : List Char} (hr : r ≠ []) :
    ∀ (s w : List Char), w ≠ [] → (∀ c ∈ w, c ∉ r) →
      w <+: replaceAllL t r s → w <+: s := by
  intro s
  induction s with
  | nil =>
    intro w hw _ hp
    have : replaceAllL t r [] = [] := rfl
    rw [this] at hp
    exact absurd ( List.prefix_nil.mp hp) hw
  | cons c s' ih =>
    intro w hw hdisj hp
    rw [replaceAllL_cons] at hp
    by_cases hc : t ≠ [] ∧ t.isPrefixOf (c :: s')
    · rw [if_pos hc] at hp
      exfalso
      obtain ⟨wh, wt, rfl⟩ := List.exists_cons_of_ne_nil hw
      obtain ⟨rh, rt, hr'⟩ := List.exists_cons_of_ne_nil hr
      rw [hr'] at hp
      simp only [List.cons_append] at hp
      have hwr : wh = rh := ((List.cons_prefix_cons).mp hp).1
      have : wh ∈ r := by
        rw [hr', hwr]
        exact List.mem_cons_self rh rt
      exact hdisj wh (List.mem_cons_self wh wt) this
    · rw [if_neg hc] at hp
      obtain ⟨wh, wt, rfl⟩ := List.exists_cons_of_ne_nil hw
      obtain ⟨rfl, hp'⟩ := (List.cons_prefix_cons).mp hp
      by_cases hwt : wt = []
      · subst hwt
        exact (List.cons_prefix_cons).mpr ⟨rfl, List.nil_prefix⟩
      · have hsub : ∀ a ∈ wt, a ∉ r :=
          fun a ha => hdisj a (List.mem_cons_of_mem _ ha)
        exact (List.cons_prefix_cons).mpr ⟨rfl, ih wt hwt hsub hp'⟩

/-- After a global replace with a non-empty replacement sharing no character
with the non-empty pattern, the pattern does not occur in the output. -/
theorem not_contains_replaceAllL {t r : List Char} (ht : t ≠ []) (hr : r ≠ [])
    (hdisj : ∀ c ∈ t, c ∉ r) :
    ∀ (n : ℕ) (s : List Char), s.length ≤ n → ¬ t <:+: replaceAllL t r s := by
  intro n
  induction n with
  | zero =>
    intro s hs
    have h0 : s = [] := List.length_eq_zero.mp (Nat.le_zero.mp hs)
    subst h0
    intro hinf
    exact ht ( List.infix_nil.mp hinf)
  | succ k ih =>
    intro s hs
    cases s with
    | nil =>
      intro hinf
      exact ht ( List.infix_nil.mp hinf)
    | cons c s' =>
      rw [replaceAllL_cons]
      by_cases hc : t ≠ [] ∧ t.isPrefixOf (c :: s')
      · rw [if_pos hc]
        apply not_infix_append ht hdisj
        apply ih
        simp only [List.length_drop]
        simp only [List.length_cons] at hs
        omega
      · rw [if_neg hc]
        intro hinf
        rcases List.infix_cons_iff.mp hinf with hpre | htail
        · obtain ⟨th, tt, hteq⟩ := List.exists_cons_of_ne_nil ht
          rw [hteq] at hpre
          obtain ⟨hthc, hpre'⟩ := (List.cons_prefix_cons).mp hpre
          by_cases htt : tt = []
          · refine hc ⟨ht, ?_⟩
            rw [hteq, htt, hthc]
            simp [ List.isPrefixOf_iff_prefix]
          · have hsub : ∀ a ∈ tt, a ∉ r := by
              intro a ha
              apply hdisj
              rw [hteq]
              exact List.mem_cons_of_mem _ ha
            have hwt := prefix_replaceAll_imp hr s' tt htt hsub hpre'
            refine hc ⟨ht, ?_⟩
            rw [hteq, hthc]
            exact List.isPrefixOf_iff_prefix.mpr
              ((List.cons_prefix_cons).mpr ⟨rfl, hwt⟩)
        · exact ih s' (by simp only [List.length_cons] at hs; omega) htail

/-- Claim C6 (amended): provided the data-source reference is non-empty and
shares no character with the placeholder token, resolution removes the
token — it does not occur in the output — and resolving an already-resolved
document (one with no token occurrence) returns it unchanged.  (Resolution
is a pure function of its input by construction; the token can reappear
only when the reference itself contains or completes an occurrence, as
`resolveStyle_token_reappears` shows.) -/
theorem resolveStyle_idempotent (doc r : String)
    (hdisj : ∀ c ∈ mbtilesToken.toList, c ∉ r.toList)
    (hne : r.toList ≠ []) :
    containsSub mbtilesToken (resolveStyle doc r) = false
  ∧ (containsSub mbtilesToken doc = false → resolveStyle doc r = doc) := by
  have ht : mbtilesToken.toList ≠ [] := by decide
  constructor
  · have h := not_contains_replaceAllL ht hne hdisj doc.toList.length doc.toList
      (le_refl _)
    show containsSubL mbtilesToken.toList
      (replaceAllL mbtilesToken.toList r.toList doc.toList) = false
    exact Bool.eq_false_iff.mpr (fun hb => h ((containsSubL_iff _ _).mp hb))
  · intro hd
    have hni : ¬ mbtilesToken.toList <:+: doc.toList := by
      intro hinf
      rw [← containsSubL_iff] at hinf
      rw [containsSub] at hd
      rw [hd] at hinf
      exact Bool.false_ne_true hinf
    show (replaceAllL mbtilesToken.toList r.toList doc.toList).asString = doc
    rw [replaceAllL_of_not_contains _ _ _ hni]
    rfl

/-- Witness for C6 (amended) with token-free reference `vector`: the
resolved document is token-free, and re-resolving a resolved document
leaves it unchanged. -/
theorem resolveStyle_idempotent_witness :
    (∀ c ∈ mbtilesToken.toList, c ∉ "vector".toList)
  ∧ "vector".toList ≠ []
  ∧ containsSub mbtilesToken (resolveStyle "mbtiles://MBTILES_PATH/p" "vector") = false
  ∧ (containsSub mbtilesToken "mbtiles://vector/p" = false →
      resolveStyle "mbtiles://vector/p" "vector" = "mbtiles://vector/p") := by
  refine ⟨by decide, by decide, ?_, ?_⟩
  · exact (resolveStyle_idempotent "mbtiles://MBTILES_PATH/p" "vector"
      (by decide) (by decide)).1
  · exact (resolveStyle_idempotent "mbtiles://vector/p" "vector"
      (by decide) (by decide)).2

/-- Witness for C10 at the malformed non-blank line `foo,bar`. -/
theorem loop_no_validation_witness :
    ((jsTrim "foo,bar").toList ≠ [] )
  ∧ loopStep "out" "foo,bar"
      = some (parseTriple "foo,bar", tilePathOf "out" "foo,bar") := by
  exact ⟨by decide, (loop_no_validation "out" "foo,bar" (by decide)).1⟩

end PugetMesh
